import Mathlib

set_option synthInstance.maxSize 1024

/-!
Verification of the Countdown numbers-game solver (src/Exam.py).

The program encodes the game as constraints over integer variables
(id_0..id_5, step_done_0..step_done_5, op_0..op_4, res_0..res_5) and hands
them to an external optimizer with two lexicographic minimization
objectives.  We shallowly embed the constraint encodings as decidable
predicates over an explicit assignment structure, and model the external
optimizer's documented lexicographic semantics as a predicate on the
returned assignment.
-/

namespace Exam

/-- An assignment of the solver variables of CountingStrategy:
ids i = id_i, steps i = step_done_i, ops i = op_i, vals i = res_i
(only indices 0..5, resp. 0..4 for ops, are constrained or read). -/
structure Asg where
  ids : Nat → Int
  steps : Nat → Bool
  ops : Nat → Int
  vals : Nat → Int

/-- The z3 array built by `arr = K(IntSort(), 0)` followed by
`Store(arr, i, v)` for each (i, v) in enumerate(numbers): index i holds
numbers[i] when 0 ≤ i < len(numbers) and the default 0 otherwise. -/
def arr (numbers : List Int) (i : Int) : Int :=
  if 0 ≤ i then numbers.getD i.toNat 0 else 0

/-- The inner `apply` of the source: the per-step transition constraint.
If the step is skipped the value is unchanged; otherwise op 0 adds, op 1
subtracts, op 2 multiplies, and any other op code is the division case,
which additionally requires a nonzero divisor and exact divisibility.
(The division branch only asserts the quotient under the exact-divisibility
guard, where every integer-division convention agrees with z3's.) -/
def apply (op_now val_now val_next : Int) (step : Bool) (n_used : Int) : Prop :=
  if step = true then
    if op_now = 0 then val_next = val_now + n_used
    else if op_now = 1 then val_next = val_now - n_used
    else if op_now = 2 then val_next = val_now * n_used
    else n_used ≠ 0 ∧ val_now % n_used = 0 ∧ val_next = val_now / n_used
  else val_next = val_now

instance (op_now val_now val_next : Int) (step : Bool) (n_used : Int) :
    Decidable (apply op_now val_now val_next step n_used) := by
  unfold apply; infer_instance

/-- used_count = Sum([If(steps[k], 1, 0) for k in range(6)]). -/
def used_count (a : Asg) : Int :=
  ((List.range 6).map (fun k => if a.steps k then (1 : Int) else 0)).sum

/-- dist_to_target = Abs(target - vals[5]). -/
def dist_to_target (target : Int) (a : Asg) : Int := |target - a.vals 5|

/-- The constraints of CountingStrategy, in source order:
initial value, id ranges, op ranges, contiguous-prefix rule, pairwise
uniqueness of ids among executed steps, per-step transition, step 0 forced. -/
def Feasible (numbers : List Int) (a : Asg) : Prop :=
  a.vals 0 = arr numbers (a.ids 0) ∧
  (∀ i, i < 6 → 0 ≤ a.ids i ∧ a.ids i < 6) ∧
  (∀ i, i < 5 → 0 ≤ a.ops i ∧ a.ops i < 4) ∧
  (∀ i, i < 6 → i ≠ 0 → (a.steps i = true → a.steps (i - 1) = true)) ∧
  (∀ i, i < 6 → ∀ j, j < 6 → i < j →
    (a.steps i = true ∧ a.steps j = true) → a.ids i ≠ a.ids j) ∧
  (∀ k, k < 6 → 1 ≤ k →
    (if a.steps k = true
     then apply (a.ops (k - 1)) (a.vals (k - 1)) (a.vals k) true (arr numbers (a.ids k))
     else a.vals k = a.vals (k - 1))) ∧
  a.steps 0 = true

instance (numbers : List Int) (a : Asg) : Decidable (Feasible numbers a) := by
  unfold Feasible; infer_instance

/-- An assignment of the solver variables of CountingStrategyResilient:
the base variables plus last_op, att_res_1..att_res_10 (att_res (a-1+1) at
index a), att_dist_1..att_dist_10 and worst_dist.  The attack arrays are
indexed by the attack value itself (1..10). -/
structure RAsg extends Asg where
  last_op : Int
  att_res : Nat → Int
  att_dist : Nat → Int
  worst_dist : Int

/-- vals_arr = Store-chain of vals[0..5] over the default-0 array. -/
def vals_arr (r : RAsg) (i : Int) : Int :=
  if 0 ≤ i ∧ i < 6 then r.vals i.toNat else 0

/-- ops_arr = Store-chain of ops[0..4] over the default-0 array. -/
def ops_arr (r : RAsg) (i : Int) : Int :=
  if 0 ≤ i ∧ i < 5 then r.ops i.toNat else 0

/-- pre_last_val = Select(vals_arr, last_op - 1). -/
def pre_last_val (r : RAsg) : Int := vals_arr r (r.last_op - 1)

/-- last_op_code = Select(ops_arr, last_op - 1). -/
def last_op_code (r : RAsg) : Int := ops_arr r (r.last_op - 1)

/-- legal_attack = Or(last_op_code != 3, pre_last_val % attack == 0). -/
def legal_attack (r : RAsg) (attack : Int) : Prop :=
  last_op_code r ≠ 3 ∨ pre_last_val r % attack = 0

instance (r : RAsg) (attack : Int) : Decidable (legal_attack r attack) := by
  unfold legal_attack; infer_instance

/-- One disjunct of the source's `cases` list for step k:
last_op == k, step k executed, and (for k < 5) step k+1 not executed
(for k == 5 the tail is the literal True). -/
def lastCase (r : RAsg) (k : Nat) : Prop :=
  r.last_op = (k : Int) ∧ r.steps k = true ∧
    (if k = 5 then True else r.steps (k + 1) = false)

instance (r : RAsg) (k : Nat) : Decidable (lastCase r k) := by
  unfold lastCase; infer_instance

/-- One disjunct of the source's worst_dist attainment constraint:
And(legal, worst_dist == d) for attack value att. -/
def worstCase (r : RAsg) (att : Nat) : Prop :=
  legal_attack r (att : Int) ∧ r.worst_dist = r.att_dist att

instance (r : RAsg) (att : Nat) : Decidable (worstCase r att) := by
  unfold worstCase; infer_instance

/-- The constraints of CountingStrategyResilient, in source order: the base
constraints of CountingStrategy, the Or over the five `cases` disjuncts,
step 1 forced, the range of last_op, the per-attack constraints
(legal ⇒ apply, and the att_dist definition with the -1 sentinel), the
upper-bound constraints worst_dist ≥ att_dist, and the attainment Or. -/
def ResilientFeasible (numbers : List Int) (target : Int) (r : RAsg) : Prop :=
  Feasible numbers r.toAsg ∧
  (lastCase r 1 ∨ lastCase r 2 ∨ lastCase r 3 ∨ lastCase r 4 ∨ lastCase r 5) ∧
  r.steps 1 = true ∧
  (1 ≤ r.last_op ∧ r.last_op ≤ 5) ∧
  (∀ att : Nat, att < 11 → 1 ≤ att →
    (legal_attack r (att : Int) →
      apply (last_op_code r) (pre_last_val r) (r.att_res att) true (att : Int)) ∧
    r.att_dist att =
      (if legal_attack r (att : Int) then |target - r.att_res att| else -1)) ∧
  (∀ att : Nat, att < 11 → 1 ≤ att → r.att_dist att ≤ r.worst_dist) ∧
  (worstCase r 1 ∨ worstCase r 2 ∨ worstCase r 3 ∨ worstCase r 4 ∨ worstCase r 5 ∨
   worstCase r 6 ∨ worstCase r 7 ∨ worstCase r 8 ∨ worstCase r 9 ∨ worstCase r 10)

instance (numbers : List Int) (target : Int) (r : RAsg) :
    Decidable (ResilientFeasible numbers target r) := by
  unfold ResilientFeasible; infer_instance

/-- The z3 `Optimize` object resolves several `minimize` calls
lexicographically.  second_obj is the plain solver's second objective,
If(dist_to_target == 0, used_count, 0). -/
def second_obj (target : Int) (a : Asg) : Int :=
  if dist_to_target target a = 0 then used_count a else 0

/-- Modelled semantics of the external z3 Optimize call in CountingStrategy:
the returned model is feasible, minimizes dist_to_target over the feasible
region, and among assignments with the same (optimal) dist_to_target it
minimizes the second objective.  The z3 library is outside this repository;
this is its documented lexicographic-optimization contract applied to the
two objectives of the source. -/
def SolveReturns (numbers : List Int) (target : Int) (a : Asg) : Prop :=
  Feasible numbers a ∧
  (∀ b : Asg, Feasible numbers b → dist_to_target target a ≤ dist_to_target target b) ∧
  (∀ b : Asg, Feasible numbers b → dist_to_target target b = dist_to_target target a →
    second_obj target a ≤ second_obj target b)

/-- The resilient solver's second objective, If(worst_dist == 0, used_count, 0). -/
def second_obj_res (r : RAsg) : Int :=
  if r.worst_dist = 0 then used_count r.toAsg else 0

/-- Modelled semantics of the external z3 Optimize call in
CountingStrategyResilient: the returned model is feasible for the resilient
encoding, minimizes worst_dist, and among assignments with the same
(optimal) worst_dist it minimizes the second objective. -/
def SolveResilientReturns (numbers : List Int) (target : Int) (r : RAsg) : Prop :=
  ResilientFeasible numbers target r ∧
  (∀ s : RAsg, ResilientFeasible numbers target s → r.worst_dist ≤ s.worst_dist) ∧
  (∀ s : RAsg, ResilientFeasible numbers target s → s.worst_dist = r.worst_dist →
    second_obj_res r ≤ second_obj_res s)

/-- The value computed by an executed apply step, as a function: used to
state what the attack constraints force att_res to be. -/
def applyF (op_now val_now n_used : Int) : Int :=
  if op_now = 0 then val_now + n_used
  else if op_now = 1 then val_now - n_used
  else if op_now = 2 then val_now * n_used
  else val_now / n_used

/-- The distance of attack a against assignment r:
|target - apply(last_op_code, pre_last_val, a)| as a function. -/
def att_val (target : Int) (r : RAsg) (a : Int) : Int :=
  |target - applyF (last_op_code r) (pre_last_val r) a|

/-- The set of legal attack values in 1..10 for assignment r. -/
def legal_attacks (r : RAsg) : Finset Int :=
  (Finset.Icc 1 10).filter (fun a => legal_attack r a)

/-- The all-zero number pool used by several concrete witnesses. -/
def zeros : List Int := [0, 0, 0, 0, 0, 0]

/-- Witness assignment for the plain solver on the zero pool with target 0:
only step 0 is executed and every value is 0. -/
def asgA : Asg := ⟨fun k => (k : Int), fun k => k == 0, fun _ => 0, fun _ => 0⟩

/-- Feasible assignment with one executed add step over the pool
[2, 3, 0, 0, 0, 0]: 2 + 3 = 5. -/
def asgB : Asg :=
  ⟨fun k => (k : Int), fun k => k == 0 || k == 1, fun _ => 0,
   fun k => if k == 0 then 2 else 5⟩

/-- Assignment over the 5-entry pool [1, 2, 3, 4, 5] that picks the phantom
index 5, whose Select value is the array default 0. -/
def asgC : Asg := ⟨fun _ => 5, fun k => k == 0, fun _ => 0, fun _ => 0⟩

/-- Feasible assignment with two executed steps and distinct operand ids. -/
def asgD : Asg :=
  ⟨fun k => (k : Int), fun k => k == 0 || k == 1, fun _ => 0,
   fun k => if k == 0 then 2 else 5⟩

/-- Resilient witness on the zero pool, target 0: step 1 multiplies by the
pool entry 0, so every attack result is 0 and worst_dist = 0. -/
def rA : RAsg :=
  ⟨⟨fun k => (k : Int), fun k => k == 0 || k == 1, fun _ => 2, fun _ => 0⟩,
   1, fun _ => 0, fun _ => 0, 0⟩

/-- A second copy of the shape of rA, used by the worst-distance
characterization witness. -/
def rB : RAsg :=
  ⟨⟨fun k => (k : Int), fun k => k == 0 || k == 1, fun _ => 2, fun _ => 0⟩,
   1, fun _ => 0, fun _ => 0, 0⟩

/-- Resilient assignment over pool [0, 100, 0, 0, 0, 0], target 5:
step 1 adds 100 to 0, so the unattacked distance is 95, while every attack
result lies in 1..10 and the worst attack distance is only 5. -/
def rC : RAsg :=
  ⟨⟨fun k => (k : Int), fun k => k == 0 || k == 1, fun _ => 0,
    fun k => if k == 0 then 0 else 100⟩,
   1, fun att => (att : Int), fun att => |(5 : Int) - (att : Int)|, 5⟩

/-- Resilient assignment over pool [0, 1, 0, 0, 0, 0], target 1: step 1 adds
the pool entry 1 (which lies in the attack range 1..10) to 0. -/
def rD : RAsg :=
  ⟨⟨fun k => (k : Int), fun k => k == 0 || k == 1, fun _ => 0,
    fun k => if k == 0 then 0 else 1⟩,
   1, fun att => (att : Int), fun att => |(1 : Int) - (att : Int)|, 9⟩

/-- Resilient assignment over pool [7, 1, 2, 3, 4, 5], target 7, whose last
executed operation is a division of 7 by 1: only attacks 1 and 7 are legal. -/
def rE : RAsg :=
  ⟨⟨fun k => (k : Int), fun k => k == 0 || k == 1, fun _ => 3, fun _ => 7⟩,
   1, fun att => if att == 1 then 7 else if att == 7 then 1 else 0,
   fun att => if att == 1 then 0 else if att == 7 then 6 else -1, 6⟩

/-- A copy of the shape of rA for the attack-legality witness. -/
def rF : RAsg :=
  ⟨⟨fun k => (k : Int), fun k => k == 0 || k == 1, fun _ => 2, fun _ => 0⟩,
   1, fun _ => 0, fun _ => 0, 0⟩

/-- A copy of the shape of rA for the sentinel-exclusion witness. -/
def rG : RAsg :=
  ⟨⟨fun k => (k : Int), fun k => k == 0 || k == 1, fun _ => 2, fun _ => 0⟩,
   1, fun _ => 0, fun _ => 0, 0⟩

/-- The assignment executing only step 0 over any pool: step 0 picks index
0 and every value equals the first pool entry. -/
def skipAsg (numbers : List Int) : Asg :=
  ⟨fun k => (k : Int), fun k => k == 0, fun _ => 0, fun _ => numbers.getD 0 0⟩

section Lemmas

variable {numbers : List Int} {target : Int} {a : Asg} {r : RAsg}

lemma feasible_vals0 (h : Feasible numbers a) : a.vals 0 = arr numbers (a.ids 0) := h.1

lemma feasible_ids_range (h : Feasible numbers a) :
    ∀ i, i < 6 → 0 ≤ a.ids i ∧ a.ids i < 6 := h.2.1

lemma feasible_ops_range (h : Feasible numbers a) :
    ∀ i, i < 5 → 0 ≤ a.ops i ∧ a.ops i < 4 := h.2.2.1

lemma feasible_steps_mono (h : Feasible numbers a) :
    ∀ i, i < 6 → i ≠ 0 → (a.steps i = true → a.steps (i - 1) = true) := h.2.2.2.1

lemma feasible_unique (h : Feasible numbers a) :
    ∀ i, i < 6 → ∀ j, j < 6 → i < j →
      (a.steps i = true ∧ a.steps j = true) → a.ids i ≠ a.ids j := h.2.2.2.2.1

lemma feasible_trans (h : Feasible numbers a) :
    ∀ k, k < 6 → 1 ≤ k →
      (if a.steps k = true
       then apply (a.ops (k - 1)) (a.vals (k - 1)) (a.vals k) true (arr numbers (a.ids k))
       else a.vals k = a.vals (k - 1)) := h.2.2.2.2.2.1

lemma feasible_steps0 (h : Feasible numbers a) : a.steps 0 = true := h.2.2.2.2.2.2

lemma rf_base (h : ResilientFeasible numbers target r) : Feasible numbers r.toAsg := h.1

lemma rf_lastCases (h : ResilientFeasible numbers target r) :
    lastCase r 1 ∨ lastCase r 2 ∨ lastCase r 3 ∨ lastCase r 4 ∨ lastCase r 5 := h.2.1

lemma rf_steps1 (h : ResilientFeasible numbers target r) : r.steps 1 = true := h.2.2.1

lemma rf_last_range (h : ResilientFeasible numbers target r) :
    1 ≤ r.last_op ∧ r.last_op ≤ 5 := h.2.2.2.1

lemma rf_attacks (h : ResilientFeasible numbers target r) :
    ∀ att : Nat, att < 11 → 1 ≤ att →
      (legal_attack r (att : Int) →
        apply (last_op_code r) (pre_last_val r) (r.att_res att) true (att : Int)) ∧
      r.att_dist att =
        (if legal_attack r (att : Int) then |target - r.att_res att| else -1) :=
  h.2.2.2.2.1

lemma rf_worst_ub (h : ResilientFeasible numbers target r) :
    ∀ att : Nat, att < 11 → 1 ≤ att → r.att_dist att ≤ r.worst_dist :=
  h.2.2.2.2.2.1

lemma rf_worstOr (h : ResilientFeasible numbers target r) :
    worstCase r 1 ∨ worstCase r 2 ∨ worstCase r 3 ∨ worstCase r 4 ∨ worstCase r 5 ∨
    worstCase r 6 ∨ worstCase r 7 ∨ worstCase r 8 ∨ worstCase r 9 ∨ worstCase r 10 :=
  h.2.2.2.2.2.2

lemma one_le_used_count (h : a.steps 0 = true) : 1 ≤ used_count a := by
  have e : List.range 6 = [0, 1, 2, 3, 4, 5] := rfl
  unfold used_count
  rw [e]
  simp only [List.map_cons, List.map_nil, List.sum_cons, List.sum_nil, h, if_true]
  have t : ∀ k : Nat, (0 : Int) ≤ if a.steps k = true then 1 else 0 := by
    intro k; split <;> norm_num
  linarith [t 1, t 2, t 3, t 4, t 5]

lemma two_le_used_count (h0 : a.steps 0 = true) (h1 : a.steps 1 = true) :
    2 ≤ used_count a := by
  have e : List.range 6 = [0, 1, 2, 3, 4, 5] := rfl
  unfold used_count
  rw [e]
  simp only [List.map_cons, List.map_nil, List.sum_cons, List.sum_nil, h0, h1, if_true]
  have t : ∀ k : Nat, (0 : Int) ≤ if a.steps k = true then 1 else 0 := by
    intro k; split <;> norm_num
  linarith [t 2, t 3, t 4, t 5]

lemma apply_true_iff (op_now val_now val_next n_used : Int) :
    apply op_now val_now val_next true n_used ↔
      (if op_now = 0 then val_next = val_now + n_used
       else if op_now = 1 then val_next = val_now - n_used
       else if op_now = 2 then val_next = val_now * n_used
       else n_used ≠ 0 ∧ val_now % n_used = 0 ∧ val_next = val_now / n_used) := by
  unfold apply
  simp

lemma apply_val {op_now val_now val_next n_used : Int}
    (h : apply op_now val_now val_next true n_used) :
    val_next = applyF op_now val_now n_used := by
  rw [apply_true_iff] at h
  unfold applyF
  by_cases h0 : op_now = 0
  · rw [if_pos h0] at h ⊢; exact h
  · rw [if_neg h0] at h ⊢
    by_cases h1 : op_now = 1
    · rw [if_pos h1] at h ⊢; exact h
    · rw [if_neg h1] at h ⊢
      by_cases h2 : op_now = 2
      · rw [if_pos h2] at h ⊢; exact h
      · rw [if_neg h2] at h ⊢; exact h.2.2

lemma apply_div_guard {op_now val_now val_next n_used : Int} (hop : op_now = 3)
    (h : apply op_now val_now val_next true n_used) :
    n_used ≠ 0 ∧ val_now % n_used = 0 ∧ val_next = val_now / n_used := by
  subst hop
  rw [apply_true_iff] at h
  rw [if_neg (by norm_num : ¬ (3 : Int) = 0), if_neg (by norm_num : ¬ (3 : Int) = 1),
      if_neg (by norm_num : ¬ (3 : Int) = 2)] at h
  exact h

lemma steps_false_succ (h : Feasible numbers a) (m : Nat) (h1 : 1 ≤ m) (h4 : m ≤ 4)
    (hm : a.steps m = false) : a.steps (m + 1) = false := by
  cases hs : a.steps (m + 1) with
  | false => rfl
  | true =>
    have hp := feasible_steps_mono h (m + 1) (by omega) (by omega) hs
    rw [Nat.add_sub_cancel, hm] at hp
    exact Bool.noConfusion hp

lemma vals_skip (h : Feasible numbers a) (m : Nat) (h1 : 1 ≤ m) (h5 : m ≤ 5)
    (hm : a.steps m = false) : a.vals m = a.vals (m - 1) := by
  have ht := feasible_trans h m (by omega) h1
  rw [if_neg (by simp [hm])] at ht
  exact ht

lemma vals5_eq_last (h : Feasible numbers a) (k : Nat) (hk1 : 1 ≤ k) (hk5 : k ≤ 5)
    (hnext : k = 5 ∨ a.steps (k + 1) = false) : a.vals 5 = a.vals k := by
  interval_cases k
  · rcases hnext with hk | h2
    · exact absurd hk (by norm_num)
    · have h3 : a.steps 3 = false := steps_false_succ h 2 (by norm_num) (by norm_num) h2
      have h4 : a.steps 4 = false := steps_false_succ h 3 (by norm_num) (by norm_num) h3
      have h5x : a.steps 5 = false := steps_false_succ h 4 (by norm_num) (by norm_num) h4
      have e5 : a.vals 5 = a.vals 4 := vals_skip h 5 (by norm_num) (by norm_num) h5x
      have e4 : a.vals 4 = a.vals 3 := vals_skip h 4 (by norm_num) (by norm_num) h4
      have e3 : a.vals 3 = a.vals 2 := vals_skip h 3 (by norm_num) (by norm_num) h3
      have e2 : a.vals 2 = a.vals 1 := vals_skip h 2 (by norm_num) (by norm_num) h2
      rw [e5, e4, e3, e2]
  · rcases hnext with hk | h3
    · exact absurd hk (by norm_num)
    · have h4 : a.steps 4 = false := steps_false_succ h 3 (by norm_num) (by norm_num) h3
      have h5x : a.steps 5 = false := steps_false_succ h 4 (by norm_num) (by norm_num) h4
      have e5 : a.vals 5 = a.vals 4 := vals_skip h 5 (by norm_num) (by norm_num) h5x
      have e4 : a.vals 4 = a.vals 3 := vals_skip h 4 (by norm_num) (by norm_num) h4
      have e3 : a.vals 3 = a.vals 2 := vals_skip h 3 (by norm_num) (by norm_num) h3
      rw [e5, e4, e3]
  · rcases hnext with hk | h4
    · exact absurd hk (by norm_num)
    · have h5x : a.steps 5 = false := steps_false_succ h 4 (by norm_num) (by norm_num) h4
      have e5 : a.vals 5 = a.vals 4 := vals_skip h 5 (by norm_num) (by norm_num) h5x
      have e4 : a.vals 4 = a.vals 3 := vals_skip h 4 (by norm_num) (by norm_num) h4
      rw [e5, e4]
  · rcases hnext with hk | h5x
    · exact absurd hk (by norm_num)
    · exact vals_skip h 5 (by norm_num) (by norm_num) h5x
  · rfl

lemma rf_last_exists (h : ResilientFeasible numbers target r) :
    ∃ k : Nat, 1 ≤ k ∧ k ≤ 5 ∧ r.last_op = (k : Int) ∧ r.steps k = true ∧
      (k = 5 ∨ r.steps (k + 1) = false) := by
  rcases rf_lastCases h with hc | hc | hc | hc | hc
  · refine ⟨1, by norm_num, by norm_num, hc.1, hc.2.1, Or.inr ?_⟩
    have := hc.2.2; norm_num [lastCase] at this ⊢; exact this
  · refine ⟨2, by norm_num, by norm_num, hc.1, hc.2.1, Or.inr ?_⟩
    have := hc.2.2; norm_num [lastCase] at this ⊢; exact this
  · refine ⟨3, by norm_num, by norm_num, hc.1, hc.2.1, Or.inr ?_⟩
    have := hc.2.2; norm_num [lastCase] at this ⊢; exact this
  · refine ⟨4, by norm_num, by norm_num, hc.1, hc.2.1, Or.inr ?_⟩
    have := hc.2.2; norm_num [lastCase] at this ⊢; exact this
  · exact ⟨5, by norm_num, by norm_num, hc.1, hc.2.1, Or.inl rfl⟩

lemma rf_worst_exists (h : ResilientFeasible numbers target r) :
    ∃ att : Nat, 1 ≤ att ∧ att ≤ 10 ∧ legal_attack r (att : Int) ∧
      r.worst_dist = r.att_dist att := by
  rcases rf_worstOr h with hc | hc | hc | hc | hc | hc | hc | hc | hc | hc
  exacts [⟨1, by norm_num, by norm_num, hc.1, hc.2⟩,
    ⟨2, by norm_num, by norm_num, hc.1, hc.2⟩,
    ⟨3, by norm_num, by norm_num, hc.1, hc.2⟩,
    ⟨4, by norm_num, by norm_num, hc.1, hc.2⟩,
    ⟨5, by norm_num, by norm_num, hc.1, hc.2⟩,
    ⟨6, by norm_num, by norm_num, hc.1, hc.2⟩,
    ⟨7, by norm_num, by norm_num, hc.1, hc.2⟩,
    ⟨8, by norm_num, by norm_num, hc.1, hc.2⟩,
    ⟨9, by norm_num, by norm_num, hc.1, hc.2⟩,
    ⟨10, by norm_num, by norm_num, hc.1, hc.2⟩]

lemma rf_worst_nonneg (h : ResilientFeasible numbers target r) : 0 ≤ r.worst_dist := by
  have hleg : legal_attack r ((1 : Nat) : Int) := Or.inr (by simp)
  have hat := (rf_attacks h 1 (by norm_num) (by norm_num)).2
  have hub := rf_worst_ub h 1 (by norm_num) (by norm_num)
  rw [hat, if_pos hleg] at hub
  exact le_trans (abs_nonneg _) hub

lemma att_dist_eq (h : ResilientFeasible numbers target r) (att : Nat) (h1 : 1 ≤ att)
    (h11 : att < 11) (hleg : legal_attack r (att : Int)) :
    r.att_dist att = att_val target r (att : Int) := by
  have hc := rf_attacks h att h11 h1
  have happ : r.att_res att = applyF (last_op_code r) (pre_last_val r) (att : Int) :=
    apply_val (hc.1 hleg)
  rw [hc.2, if_pos hleg, happ]
  rfl

lemma legal_attacks_nonempty (r : RAsg) : (legal_attacks r).Nonempty := by
  refine ⟨1, ?_⟩
  unfold legal_attacks
  rw [Finset.mem_filter, Finset.mem_Icc]
  exact ⟨⟨le_refl 1, by norm_num⟩, Or.inr (by simp)⟩

lemma feasible_ids_distinct (h : Feasible numbers a) :
    ∀ i, i < 6 → ∀ j, j < 6 → i ≠ j → a.steps i = true → a.steps j = true →
      a.ids i ≠ a.ids j := by
  intro i hi j hj hij hsi hsj
  rcases Nat.lt_or_ge i j with hlt | hge
  · exact feasible_unique h i hi j hj hlt ⟨hsi, hsj⟩
  · have hlt : j < i := by omega
    exact (feasible_unique h j hj i hi hlt ⟨hsj, hsi⟩).symm

lemma skipAsg_feasible (numbers : List Int) : Feasible numbers (skipAsg numbers) := by
  refine ⟨?_, ?_, ?_, ?_, ?_, ?_, rfl⟩
  · simp [skipAsg, arr]
  · intro i hi
    simp only [skipAsg]
    constructor
    · exact_mod_cast Nat.zero_le i
    · exact_mod_cast hi
  · intro i hi
    simp [skipAsg]
  · intro i hi hi0 hstep
    simp only [skipAsg, beq_iff_eq] at hstep
    exact absurd hstep hi0
  · rintro i hi j hj hij ⟨hsi, hsj⟩
    simp only [skipAsg, beq_iff_eq] at hsi hsj
    omega
  · intro k hk hk1
    have hne : ¬ ((skipAsg numbers).steps k = true) := by
      simp only [skipAsg, beq_iff_eq]
      omega
    rw [if_neg hne]
    rfl

lemma solveReturns_asgA : SolveReturns zeros 0 asgA := by
  refine ⟨by decide, ?_, ?_⟩
  · intro b hb
    have h0 : dist_to_target 0 asgA = 0 := by decide
    rw [h0]
    exact abs_nonneg _
  · intro b hb hbd
    have ha0 : dist_to_target 0 asgA = 0 := by decide
    have hb0 : dist_to_target 0 b = 0 := by rw [hbd, ha0]
    have h1 : second_obj 0 asgA = 1 := by decide
    rw [h1]
    unfold second_obj
    rw [if_pos hb0]
    exact one_le_used_count (feasible_steps0 hb)

lemma solveResilientReturns_rA : SolveResilientReturns zeros 0 rA := by
  refine ⟨by decide, ?_, ?_⟩
  · intro s hs
    have h0 : rA.worst_dist = 0 := rfl
    rw [h0]
    exact rf_worst_nonneg hs
  · intro s hs hsw
    have h2 : second_obj_res rA = 2 := by decide
    rw [h2]
    unfold second_obj_res
    have hsw0 : s.worst_dist = 0 := by rw [hsw]; rfl
    rw [if_pos hsw0]
    exact two_le_used_count (feasible_steps0 (rf_base hs)) (rf_steps1 hs)

end Lemmas

/-- C1: the assignment returned by solve (the lexicographic optimum of the
two minimize objectives) has dist_to_target at most that of every feasible
assignment; when its distance is 0 its used_count is at most the used_count
of every feasible assignment also of distance 0; and when its distance is
nonzero the secondary objective collapses to the constant 0, so used_count
is not optimized. -/
theorem solve_optimal (numbers : List Int) (target : Int) (a : Asg)
    (hlen : numbers.length = 6) (h : SolveReturns numbers target a) :
    (∀ b : Asg, Feasible numbers b → dist_to_target target a ≤ dist_to_target target b) ∧
    (dist_to_target target a = 0 →
      ∀ b : Asg, Feasible numbers b → dist_to_target target b = 0 →
        used_count a ≤ used_count b) ∧
    (dist_to_target target a ≠ 0 → second_obj target a = 0) := by
  obtain ⟨hf, hmin, hsec⟩ := h
  refine ⟨hmin, ?_, ?_⟩
  · intro h0 b hb hb0
    have hle := hsec b hb (by rw [hb0, h0])
    unfold second_obj at hle
    rw [if_pos h0, if_pos hb0] at hle
    exact hle
  · intro h0
    unfold second_obj
    rw [if_neg h0]

/-- C1 witness: the optimality theorem applied to the zero pool with target
0 and the assignment that only picks the first entry. -/
theorem solve_optimal_witness :
    (zeros.length = 6 ∧ SolveReturns zeros 0 asgA) ∧
    ((∀ b : Asg, Feasible zeros b → dist_to_target 0 asgA ≤ dist_to_target 0 b) ∧
     (dist_to_target 0 asgA = 0 →
       ∀ b : Asg, Feasible zeros b → dist_to_target 0 b = 0 →
         used_count asgA ≤ used_count b) ∧
     (dist_to_target 0 asgA ≠ 0 → second_obj 0 asgA = 0)) :=
  ⟨⟨rfl, solveReturns_asgA⟩, solve_optimal zeros 0 asgA rfl solveReturns_asgA⟩

/-- C2: the assignment returned by solveResilient (the lexicographic optimum
of the resilient objectives) has worst_dist at most that of every feasible
assignment of the resilient encoding; used_count is minimized as a secondary
objective exactly when worst_dist = 0, the same lexicographic discipline as
the plain solver. -/
theorem solveResilient_optimal (numbers : List Int) (target : Int) (r : RAsg)
    (hlen : numbers.length = 6) (h : SolveResilientReturns numbers target r) :
    (∀ s : RAsg, ResilientFeasible numbers target s → r.worst_dist ≤ s.worst_dist) ∧
    (r.worst_dist = 0 →
      ∀ s : RAsg, ResilientFeasible numbers target s → s.worst_dist = 0 →
        used_count r.toAsg ≤ used_count s.toAsg) ∧
    (r.worst_dist ≠ 0 → second_obj_res r = 0) := by
  obtain ⟨hf, hmin, hsec⟩ := h
  refine ⟨hmin, ?_, ?_⟩
  · intro h0 s hs hs0
    have hle := hsec s hs (by rw [hs0, h0])
    unfold second_obj_res at hle
    rw [if_pos h0, if_pos hs0] at hle
    exact hle
  · intro h0
    unfold second_obj_res
    rw [if_neg h0]

/-- C2 witness: the resilient optimality theorem applied to the zero pool
with target 0 and the assignment that multiplies by the pool entry 0. -/
theorem solveResilient_optimal_witness :
    (zeros.length = 6 ∧ SolveResilientReturns zeros 0 rA) ∧
    ((∀ s : RAsg, ResilientFeasible zeros 0 s → rA.worst_dist ≤ s.worst_dist) ∧
     (rA.worst_dist = 0 →
       ∀ s : RAsg, ResilientFeasible zeros 0 s → s.worst_dist = 0 →
         used_count rA.toAsg ≤ used_count s.toAsg) ∧
     (rA.worst_dist ≠ 0 → second_obj_res rA = 0)) :=
  ⟨⟨rfl, solveResilientReturns_rA⟩,
   solveResilient_optimal zeros 0 rA rfl solveResilientReturns_rA⟩

/-- C3: in every feasible assignment of the resilient encoding, worst_dist
equals the maximum, over exactly the legal attacks in 1..10, of
|target - apply(last operator, pre-last value, attack)|; illegal attacks do
not contribute to the maximum. -/
theorem worst_dist_eq_max_legal (numbers : List Int) (target : Int) (r : RAsg)
    (h : ResilientFeasible numbers target r) :
    r.worst_dist =
      (legal_attacks r).sup' (legal_attacks_nonempty r) (att_val target r) := by
  apply le_antisymm
  · obtain ⟨att, h1, h10, hleg, hw⟩ := rf_worst_exists h
    have hmem : ((att : Nat) : Int) ∈ legal_attacks r := by
      unfold legal_attacks
      rw [Finset.mem_filter, Finset.mem_Icc]
      exact ⟨⟨by exact_mod_cast h1, by exact_mod_cast h10⟩, hleg⟩
    have hle := Finset.le_sup' (att_val target r) hmem
    rw [hw, att_dist_eq h att h1 (by omega) hleg]
    exact hle
  · apply Finset.sup'_le
    intro b hb
    unfold legal_attacks at hb
    rw [Finset.mem_filter, Finset.mem_Icc] at hb
    obtain ⟨⟨hb1, hb10⟩, hbleg⟩ := hb
    have hbn : ((b.toNat : Nat) : Int) = b := Int.toNat_of_nonneg (by omega)
    have h1 : 1 ≤ b.toNat := by omega
    have h11 : b.toNat < 11 := by omega
    have hleg' : legal_attack r ((b.toNat : Nat) : Int) := by rw [hbn]; exact hbleg
    have hd := att_dist_eq h b.toNat h1 h11 hleg'
    have hub := rf_worst_ub h b.toNat h11 h1
    rw [hd, hbn] at hub
    exact hub

/-- C3 witness: the worst-distance characterization applied to a concrete
feasible resilient assignment. -/
theorem worst_dist_eq_max_legal_witness :
    ResilientFeasible zeros 0 rB ∧
    rB.worst_dist =
      (legal_attacks rB).sup' (legal_attacks_nonempty rB) (att_val 0 rB) :=
  ⟨by decide, worst_dist_eq_max_legal zeros 0 rB (by decide)⟩

/-- C4 counterexample: a feasible assignment of the resilient encoding over
pool [0, 100, 0, 0, 0, 0] with target 5 whose worst attack distance (5) is
strictly below the unattacked distance (95): replacing the true final
operand 100 by any attack value 1..10 lands closer to the target. -/
theorem worst_dist_ge_dist_counterexample :
    ResilientFeasible [0, 100, 0, 0, 0, 0] 5 rC ∧
    rC.worst_dist < dist_to_target 5 rC.toAsg := by decide

/-- C4 (amended): in every feasible assignment of the resilient encoding
whose last executed step uses a true operand lying in the attack range
1..10, worst_dist is at least the unattacked distance |target - value 5|. -/
theorem worst_dist_ge_dist_of_operand_in_range (numbers : List Int) (target : Int)
    (r : RAsg) (h : ResilientFeasible numbers target r)
    (hlo : 1 ≤ arr numbers (r.ids r.last_op.toNat))
    (hhi : arr numbers (r.ids r.last_op.toNat) ≤ 10) :
    dist_to_target target r.toAsg ≤ r.worst_dist := by
  obtain ⟨k, hk1, hk5, hlk, hsk, hnext⟩ := rf_last_exists h
  have hkN : r.last_op.toNat = k := by rw [hlk]; simp
  rw [hkN] at hlo hhi
  have htr := feasible_trans (rf_base h) k (by omega) hk1
  rw [if_pos hsk] at htr
  have hvk : r.toAsg.vals k =
      applyF (r.toAsg.ops (k - 1)) (r.toAsg.vals (k - 1)) (arr numbers (r.toAsg.ids k)) :=
    apply_val htr
  have hpre : pre_last_val r = r.toAsg.vals (k - 1) := by
    unfold pre_last_val vals_arr
    rw [hlk, if_pos ⟨by omega, by omega⟩]
    congr 1
    omega
  have hopc : last_op_code r = r.toAsg.ops (k - 1) := by
    unfold last_op_code ops_arr
    rw [hlk, if_pos ⟨by omega, by omega⟩]
    congr 1
    omega
  have hk11 : (arr numbers (r.toAsg.ids k)).toNat < 11 := by omega
  have hk1n : 1 ≤ (arr numbers (r.toAsg.ids k)).toNat := by omega
  have hcast : (((arr numbers (r.toAsg.ids k)).toNat : Nat) : Int) =
      arr numbers (r.toAsg.ids k) := by omega
  have hleg : legal_attack r (((arr numbers (r.toAsg.ids k)).toNat : Nat) : Int) := by
    rw [hcast]
    by_cases hop : last_op_code r = 3
    · refine Or.inr ?_
      rw [hpre]
      have h3 : r.toAsg.ops (k - 1) = 3 := by rw [← hopc]; exact hop
      exact (apply_div_guard h3 htr).2.1
    · exact Or.inl hop
  have hatt := rf_attacks h (arr numbers (r.toAsg.ids k)).toNat hk11 hk1n
  have happ := hatt.1 hleg
  rw [hcast, hopc, hpre] at happ
  have hres : r.att_res (arr numbers (r.toAsg.ids k)).toNat =
      applyF (r.toAsg.ops (k - 1)) (r.toAsg.vals (k - 1)) (arr numbers (r.toAsg.ids k)) :=
    apply_val happ
  have hdist : r.att_dist (arr numbers (r.toAsg.ids k)).toNat =
      |target - r.toAsg.vals k| := by
    rw [hatt.2, if_pos hleg, hres, ← hvk]
  have hub := rf_worst_ub h (arr numbers (r.toAsg.ids k)).toNat hk11 hk1n
  rw [hdist] at hub
  have h5 : r.toAsg.vals 5 = r.toAsg.vals k := vals5_eq_last (rf_base h) k hk1 hk5 hnext
  calc dist_to_target target r.toAsg = |target - r.toAsg.vals 5| := rfl
    _ = |target - r.toAsg.vals k| := by rw [h5]
    _ ≤ r.worst_dist := hub

/-- C4 witness: the amended bound applied to a resilient assignment whose
last true operand is the pool entry 1. -/
theorem worst_dist_ge_dist_witness :
    (ResilientFeasible [0, 1, 0, 0, 0, 0] 1 rD ∧
     1 ≤ arr [0, 1, 0, 0, 0, 0] (rD.ids rD.last_op.toNat) ∧
     arr [0, 1, 0, 0, 0, 0] (rD.ids rD.last_op.toNat) ≤ 10) ∧
    dist_to_target 1 rD.toAsg ≤ rD.worst_dist :=
  ⟨by decide, worst_dist_ge_dist_of_operand_in_range [0, 1, 0, 0, 0, 0] 1 rD
    (by decide) (by decide) (by decide)⟩

/-- C5: in every feasible assignment, for every step k in 1..5: a skipped
step leaves the value unchanged, and an executed step adds, subtracts or
multiplies the selected pool entry for op codes 0, 1, 2, while op code 3
forces a nonzero, exactly dividing operand and sets the exact quotient —
assignments with an illegal division are excluded from the feasible region. -/
theorem step_transition_cases (numbers : List Int) (a : Asg) (h : Feasible numbers a)
    (k : Nat) (hk1 : 1 ≤ k) (hk5 : k ≤ 5) :
    (a.steps k = false → a.vals k = a.vals (k - 1)) ∧
    (a.steps k = true →
      (a.ops (k - 1) = 0 → a.vals k = a.vals (k - 1) + arr numbers (a.ids k)) ∧
      (a.ops (k - 1) = 1 → a.vals k = a.vals (k - 1) - arr numbers (a.ids k)) ∧
      (a.ops (k - 1) = 2 → a.vals k = a.vals (k - 1) * arr numbers (a.ids k)) ∧
      (a.ops (k - 1) = 3 → arr numbers (a.ids k) ≠ 0 ∧
        a.vals (k - 1) % arr numbers (a.ids k) = 0 ∧
        a.vals k = a.vals (k - 1) / arr numbers (a.ids k))) := by
  have htr := feasible_trans h k (by omega) hk1
  constructor
  · intro hf
    rw [if_neg (by simp [hf])] at htr
    exact htr
  · intro ht
    rw [if_pos ht, apply_true_iff] at htr
    refine ⟨?_, ?_, ?_, ?_⟩
    · intro hop; rw [hop] at htr; norm_num at htr; exact htr
    · intro hop; rw [hop] at htr; norm_num at htr; exact htr
    · intro hop; rw [hop] at htr; norm_num at htr; exact htr
    · intro hop
      rw [hop, if_neg (by norm_num : ¬ (3 : Int) = 0),
          if_neg (by norm_num : ¬ (3 : Int) = 1),
          if_neg (by norm_num : ¬ (3 : Int) = 2)] at htr
      exact htr

/-- C5 witness: the transition cases applied to a feasible assignment whose
step 1 adds pool entry 3 to pool entry 2. -/
theorem step_transition_cases_witness :
    (Feasible [2, 3, 0, 0, 0, 0] asgB ∧ asgB.steps 1 = true ∧ asgB.ops 0 = 0) ∧
    asgB.vals 1 = asgB.vals 0 + arr [2, 3, 0, 0, 0, 0] (asgB.ids 1) :=
  ⟨by decide,
   ((step_transition_cases [2, 3, 0, 0, 0, 0] asgB (by decide) 1 (by decide)
     (by decide)).2 (by decide)).1 (by decide)⟩

/-- C6 counterexample: the solve encoding of the malformed 5-entry pool
[1, 2, 3, 4, 5] is satisfiable, so the search proceeds instead of rejecting
the input: the assignment picking the phantom index 5 (whose Select value is
the array default 0) is feasible. -/
theorem pool_size_counterexample :
    ([1, 2, 3, 4, 5] : List Int).length ≠ 6 ∧ Feasible [1, 2, 3, 4, 5] asgC := by
  decide

/-- C6 (amended): neither solver validates the pool size; a pool without
exactly 6 entries is searched anyway, with missing indices reading the
array-default value 0, and infeasibility is signaled only by the absence of
a printed model rather than by an explicit value. -/
theorem pool_size_not_validated :
    Feasible [1, 2, 3, 4, 5] asgC ∧ asgC.ids 0 = 5 ∧ asgC.vals 0 = 0 ∧
    arr [1, 2, 3, 4, 5] 5 = 0 ∧ used_count asgC = 1 := by decide

/-- C7 counterexample: a feasible resilient assignment whose last operation
divides 7 by the pool entry 1: attack 2 is illegal for it (7 is not
divisible by 2), so not all 10 attacks are legal in every feasible
assignment. -/
theorem all_attacks_legal_counterexample :
    ResilientFeasible [7, 1, 2, 3, 4, 5] 7 rE ∧ ¬ legal_attack rE 2 := by decide

/-- C7 (amended): in every feasible assignment of the resilient encoding
whose last executed operator is not the division code 3, all 10 attack
values 1..10 are legal. -/
theorem attacks_legal_of_last_not_div (numbers : List Int) (target : Int) (r : RAsg)
    (h : ResilientFeasible numbers target r) (hop : last_op_code r ≠ 3) :
    ∀ a : Int, 1 ≤ a → a ≤ 10 → legal_attack r a :=
  fun _ _ _ => Or.inl hop

/-- C7 witness: attack 2 is legal for a resilient assignment whose last
operator is multiplication. -/
theorem attacks_legal_of_last_not_div_witness :
    (ResilientFeasible zeros 0 rF ∧ last_op_code rF ≠ 3 ∧
     (1 : Int) ≤ 2 ∧ (2 : Int) ≤ 10) ∧ legal_attack rF 2 :=
  ⟨by decide, attacks_legal_of_last_not_div zeros 0 rF (by decide) (by decide) 2
    (by decide) (by decide)⟩

/-- C8: in every feasible assignment of either encoding, no two distinct
executed steps use the same operand index: each pool entry is consumed at
most once. -/
theorem executed_ids_unique (numbers : List Int) (target : Int) :
    (∀ a : Asg, Feasible numbers a → ∀ i, i < 6 → ∀ j, j < 6 → i ≠ j →
      a.steps i = true → a.steps j = true → a.ids i ≠ a.ids j) ∧
    (∀ r : RAsg, ResilientFeasible numbers target r → ∀ i, i < 6 → ∀ j, j < 6 → i ≠ j →
      r.steps i = true → r.steps j = true → r.ids i ≠ r.ids j) :=
  ⟨fun _ ha => feasible_ids_distinct ha,
   fun _ hr => feasible_ids_distinct (rf_base hr)⟩

/-- C8 witness: the uniqueness theorem applied to a concrete feasible
assignment with two executed steps. -/
theorem executed_ids_unique_witness :
    Feasible [2, 3, 0, 0, 0, 0] asgD ∧ asgD.ids 0 ≠ asgD.ids 1 :=
  ⟨by decide,
   (executed_ids_unique [2, 3, 0, 0, 0, 0] 0).1 asgD (by decide) 0 (by decide) 1
     (by decide) (by decide) (by decide) (by decide)⟩

/-- C9: for every 6-entry pool and every target the feasible region of the
solve encoding is non-empty: executing only step 0 is feasible, uses one
step, and leaves value 5 equal to value 0, the selected pool entry. -/
theorem feasible_region_nonempty (numbers : List Int) (target : Int)
    (hlen : numbers.length = 6) :
    ∃ a : Asg, Feasible numbers a ∧ used_count a = 1 ∧ a.vals 5 = a.vals 0 ∧
      a.vals 0 = arr numbers (a.ids 0) :=
  ⟨skipAsg numbers, skipAsg_feasible numbers, rfl, rfl,
   feasible_vals0 (skipAsg_feasible numbers)⟩

/-- C9 witness: the non-emptiness theorem applied to the zero pool. -/
theorem feasible_region_nonempty_witness :
    zeros.length = 6 ∧
    (∃ a : Asg, Feasible zeros a ∧ used_count a = 1 ∧ a.vals 5 = a.vals 0 ∧
      a.vals 0 = arr zeros (a.ids 0)) :=
  ⟨rfl, feasible_region_nonempty zeros 0 rfl⟩

/-- C10: in every feasible assignment of the resilient encoding attack 1 is
legal whatever the last operator is, worst_dist equals the attack distance
|target - att_res| of some legal attack, worst_dist is nonnegative, and the
-1 sentinel of illegal attacks is never selected as worst_dist. -/
theorem attack_one_legal_and_sentinel_excluded (numbers : List Int) (target : Int)
    (r : RAsg) (h : ResilientFeasible numbers target r) :
    legal_attack r 1 ∧
    (∃ att : Nat, 1 ≤ att ∧ att ≤ 10 ∧ legal_attack r (att : Int) ∧
      r.worst_dist = r.att_dist att ∧ r.att_dist att = |target - r.att_res att|) ∧
    0 ≤ r.worst_dist ∧ r.worst_dist ≠ -1 := by
  have hnn := rf_worst_nonneg h
  refine ⟨Or.inr (by simp), ?_, hnn, by omega⟩
  obtain ⟨att, h1, h10, hleg, hw⟩ := rf_worst_exists h
  refine ⟨att, h1, h10, hleg, hw, ?_⟩
  rw [(rf_attacks h att (by omega) h1).2, if_pos hleg]

/-- C10 witness: the sentinel-exclusion theorem applied to a concrete
feasible resilient assignment. -/
theorem attack_one_legal_and_sentinel_excluded_witness :
    ResilientFeasible zeros 0 rG ∧
    (legal_attack rG 1 ∧
     (∃ att : Nat, 1 ≤ att ∧ att ≤ 10 ∧ legal_attack rG (att : Int) ∧
       rG.worst_dist = rG.att_dist att ∧
       rG.att_dist att = |(0 : Int) - rG.att_res att|) ∧
     0 ≤ rG.worst_dist ∧ rG.worst_dist ≠ -1) :=
  ⟨by decide, attack_one_legal_and_sentinel_excluded zeros 0 rG (by decide)⟩

end Exam
